import Mathlib

/-!
# SecurityEventExporter: conversion and delivery pipeline

A shallow embedding of `exporter.go` and `config.go`.

* Go `map[string]interface{}` values are association lists; `mapSet` replaces
  an existing entry, so a map built by assignments has one entry per key.  A
  `range` over a Go map visits the entries in the order of the list, which
  stands for whatever order the runtime picks; where a statement needs the
  keys of a configured map to be distinct, it says so.
* A `pcommon.Map` is the list of its key/value entries; `Range` visits them in
  order.
* The library functions the exporter calls (`Value.AsString`, `time.Format`,
  `TraceID.String`, `json.Marshal`, `http.NewRequestWithContext`,
  `http.Client.Do`, ...) are fields of `Pdata` and `Net`; `unicode.ToLower`
  is the argument `lower` of `ToLower` and `isSensitiveHeader`.
* The `int64` counters of `exporterMetrics` are mathematical integers: they
  start at zero and grow by batch sizes, so wrap-around is out of reach.
* Logging calls have no effect on the state and are left out.
-/

namespace SecurityEventExporter

/-! ## Data model -/

/-- Go `error` values, identified by their message. -/
abbrev Error := String

/-- The type tag of a `pcommon.Value` (`pcommon.ValueType`). -/
inductive ValueType where
  | Empty
  | Str
  | Int
  | Double
  | Bool
  | Map
  | Slice
  | Bytes
  deriving DecidableEq, Repr

/-- A `pcommon.Value`. A double is kept as its bit pattern, bytes as numbers. -/
inductive Value where
  | empty
  | str (s : String)
  | int (n : Int)
  | double (bits : Nat)
  | bool (b : Bool)
  | map (kvs : List (String × Value))
  | slice (vs : List Value)
  | bytes (bs : List Nat)

/-- The tag of a value: `Value.Type()`. -/
def Value.Type : Value → ValueType
  | .empty => .Empty
  | .str _ => .Str
  | .int _ => .Int
  | .double _ => .Double
  | .bool _ => .Bool
  | .map _ => .Map
  | .slice _ => .Slice
  | .bytes _ => .Bytes

/-- The payload of a string value: `Value.Str()` (empty for other types). -/
def Value.Str : Value → String
  | .str s => s
  | _ => ""

/-- The payload of a bytes value: `Value.Bytes().AsRaw()`. -/
def Value.BytesAsRaw : Value → List Nat
  | .bytes bs => bs
  | _ => []

/-- The dynamic values an event (`map[string]interface{}`) can hold: whatever
the configuration supplies, Go strings, and `plog.SeverityNumber`. -/
inductive Iface where
  | null
  | bool (b : Bool)
  | int (n : Int)
  | float (bits : Nat)
  | str (s : String)
  | severityNumber (n : Int)
  | list (xs : List Iface)
  | dict (kvs : List (String × Iface))

/-- A security event: `map[string]interface{}`. -/
abbrev Event := List (String × Iface)

/-- The map lookup `m[k]` with its presence flag. -/
def mapGet {β : Type} : List (String × β) → String → Option β
  | [], _ => none
  | (k', v') :: m, k => if k' = k then some v' else mapGet m k

/-- The map assignment `m[k] = v`. -/
def mapSet {β : Type} : List (String × β) → String → β → List (String × β)
  | [], k, v => [(k, v)]
  | (k', v') :: m, k, v => if k' = k then (k, v) :: m else (k', v') :: mapSet m k v

/-- A `plog.LogRecord`. -/
structure LogRecord where
  Timestamp : Nat
  SeverityText : String
  SeverityNumber : Int
  TraceID : List Nat
  SpanID : List Nat
  Attributes : List (String × Value)
  Body : Value

/-- A `pcommon.Resource`. -/
structure Resource where
  Attributes : List (String × Value)

/-- A `plog.ScopeLogs`. -/
structure ScopeLogs where
  LogRecords : List LogRecord

/-- A `plog.ResourceLogs`. -/
structure ResourceLogs where
  Resource : Resource
  ScopeLogs : List ScopeLogs

/-- A `plog.Logs`. -/
structure Logs where
  ResourceLogs : List ResourceLogs

/-- The functions of `pdata` and `time` used by the converter. -/
structure Pdata where
  /-- The rendering `Value.AsString()`. -/
  AsString : Value → String
  /-- The rendering `Timestamp.AsTime().Format(time.RFC3339)`. -/
  FormatRFC3339 : Nat → String
  /-- The rendering `TraceID.String()`. -/
  TraceIDString : List Nat → String
  /-- The rendering `SpanID.String()`. -/
  SpanIDString : List Nat → String
  /-- The conversion `string(bytes)`. -/
  BytesToString : List Nat → String

/-- The test `TraceID.IsEmpty()` / `SpanID.IsEmpty()`: every byte is zero. -/
def IsEmpty (id : List Nat) : Bool :=
  id.all (fun b => b == 0)

/-- The configuration of the exporter (`Config`); `Timeout` is in nanoseconds. -/
structure Config where
  Endpoint : String
  Timeout : Int
  Headers : List (String × String)
  DefaultAttributes : List (String × Iface)
  RetrySettings : List (String × Iface)
  QueueSettings : List (String × Iface)

/-- The duration `time.Second`, in nanoseconds. -/
def Second : Int := 1000000000

/-- The method `Config.Validate`: the error and the configuration afterwards. -/
def Config.Validate (cfg : Config) : Option Error × Config :=
  if cfg.Endpoint = "" then
    (some "endpoint is required", cfg)
  else
    let cfg := if cfg.Timeout ≤ 0 then { cfg with Timeout := 30 * Second } else cfg
    (none, cfg)

/-! ## The converter -/

/-- The function `convertLogToSecurityEvent`. -/
def convertLogToSecurityEvent (px : Pdata) (config : Config) (logRecord : LogRecord)
    (resource : Resource) : Event × Option Error :=
  let securityEvent : Event := []
  -- Add default attributes
  let securityEvent := config.DefaultAttributes.foldl
    (fun ev kv => mapSet ev kv.1 kv.2) securityEvent
  -- Add resource attributes
  let securityEvent := resource.Attributes.foldl
    (fun ev kv => mapSet ev ("resource." ++ kv.1) (Iface.str (px.AsString kv.2))) securityEvent
  -- Add log record attributes
  let securityEvent := logRecord.Attributes.foldl
    (fun ev kv => mapSet ev ("attributes." ++ kv.1) (Iface.str (px.AsString kv.2))) securityEvent
  -- Add log record fields
  let securityEvent := mapSet securityEvent "timestamp"
    (Iface.str (px.FormatRFC3339 logRecord.Timestamp))
  let securityEvent := mapSet securityEvent "severity" (Iface.str logRecord.SeverityText)
  let securityEvent := mapSet securityEvent "severity_number"
    (Iface.severityNumber logRecord.SeverityNumber)
  -- Add trace and span information if available
  let securityEvent :=
    if !IsEmpty logRecord.TraceID then
      mapSet securityEvent "trace_id" (Iface.str (px.TraceIDString logRecord.TraceID))
    else securityEvent
  let securityEvent :=
    if !IsEmpty logRecord.SpanID then
      mapSet securityEvent "span_id" (Iface.str (px.SpanIDString logRecord.SpanID))
    else securityEvent
  -- Add log body
  let securityEvent :=
    if logRecord.Body.Type = ValueType.Str then
      mapSet securityEvent "message" (Iface.str logRecord.Body.Str)
    else if logRecord.Body.Type = ValueType.Bytes then
      mapSet securityEvent "message" (Iface.str (px.BytesToString logRecord.Body.BytesAsRaw))
    else securityEvent
  (securityEvent, none)

/-! ## Metrics, transport and the sender -/

/-- The counters and samples of the exporter (`exporterMetrics`). -/
structure exporterMetrics where
  logsReceived : Int
  eventsExported : Int
  eventsFailed : Int
  conversionErrors : Int
  httpErrors : Int
  httpRequests : Int
  httpDurations : List Int

/-- An `http.Request`, as far as the exporter fills it in. -/
structure Request where
  Method : String
  URL : String
  Header : List (String × String)
  Body : String

/-- An `http.Response`: the status code and the body, which is absent
(`nil`) or yields the result of `io.ReadAll`. -/
structure Response where
  StatusCode : Int
  Body : Option (Except Error String)

/-- The outcomes of the library calls made by one `sendSecurityEventBatch`. -/
structure Net where
  /-- The call `json.Marshal`. -/
  Marshal : List Event → Except Error String
  /-- The call `http.NewRequestWithContext(ctx, method, url, body)`. -/
  NewRequest : String → String → String → Except Error Request
  /-- The key under which `Header.Set` stores a header name. -/
  CanonicalHeaderKey : String → String
  /-- The call `client.Do`. -/
  Do : Request → Except Error Response
  /-- The value of `time.Since(startTime)` after `client.Do` returns. -/
  Since : Int

/-- The exporter (`securityEventExporter`). The field `sendLog` is a ghost
field: it records, in order, the argument of every invocation of
`sendSecurityEventBatch`. -/
structure securityEventExporter where
  config : Config
  metrics : exporterMetrics
  sendLog : List (List Event)

/-- The statement `e.metrics.httpErrors++`. -/
def incHttpErrors (e : securityEventExporter) : securityEventExporter :=
  { e with metrics := { e.metrics with httpErrors := e.metrics.httpErrors + 1 } }

/-- The call `req.Header.Set(key, value)`. -/
def headerSet (net : Net) (req : Request) (key value : String) : Request :=
  { req with Header := mapSet req.Header (net.CanonicalHeaderKey key) value }

/-- The header block of `sendSecurityEventBatch`: `Content-Type`, then every
configured header. -/
def setHeaders (net : Net) (config : Config) (req : Request) : Request :=
  let req := headerSet net req "Content-Type" "application/json"
  config.Headers.foldl (fun req kv => headerSet net req kv.1 kv.2) req

/-- The method `sendSecurityEventBatch`: the error returned and the exporter
afterwards. -/
def sendSecurityEventBatch (net : Net) (e : securityEventExporter)
    (securityEvents : List Event) : Option Error × securityEventExporter :=
  let e := { e with sendLog := e.sendLog ++ [securityEvents] }
  -- Marshal security events to JSON array
  match net.Marshal securityEvents with
  | .error err =>
    (some ("failed to marshal security event batch: " ++ err), incHttpErrors e)
  | .ok jsonData =>
    -- Create HTTP request
    match net.NewRequest "POST" e.config.Endpoint jsonData with
    | .error err =>
      (some ("failed to create HTTP request: " ++ err), incHttpErrors e)
    | .ok req =>
      -- Set headers
      let req := setHeaders net e.config req
      -- Send request
      let resp := net.Do req
      let requestDuration := net.Since
      -- Update metrics
      let e := { e with metrics := { e.metrics with
        httpRequests := e.metrics.httpRequests + 1
        httpDurations := e.metrics.httpDurations ++ [requestDuration] } }
      match resp with
      | .error err =>
        (some ("failed to send HTTP request: " ++ err), incHttpErrors e)
      | .ok resp =>
        -- Check response status
        if resp.StatusCode < 200 ∨ resp.StatusCode ≥ 300 then
          -- the response body is read for the log only
          (some ("HTTP request failed with status: " ++ toString resp.StatusCode),
            incHttpErrors e)
        else
          (none, e)

/-! ## The coordinator -/

/-- The local variables of `ConsumeLogs` that the loops update. -/
structure LoopState where
  totalLogRecords : Nat
  conversionErrors : Nat
  securityEvents : List Event

/-- The body of the loop over the log records of a scope group. -/
def consumeRecord (convert : LogRecord → Resource → Event × Option Error)
    (resource : Resource) (st : LoopState) (logRecord : LogRecord) : LoopState :=
  match convert logRecord resource with
  | (_, some _) => { st with conversionErrors := st.conversionErrors + 1 }
  | (securityEvent, none) => { st with securityEvents := st.securityEvents ++ [securityEvent] }

/-- The body of the loop over the scope groups of a resource group. -/
def consumeScope (convert : LogRecord → Resource → Event × Option Error)
    (resource : Resource) (st : LoopState) (scopeLog : ScopeLogs) : LoopState :=
  let st := { st with totalLogRecords := st.totalLogRecords + scopeLog.LogRecords.length }
  scopeLog.LogRecords.foldl (consumeRecord convert resource) st

/-- The body of the loop over the resource groups. -/
def consumeResource (convert : LogRecord → Resource → Event × Option Error)
    (st : LoopState) (resourceLog : ResourceLogs) : LoopState :=
  resourceLog.ScopeLogs.foldl (consumeScope convert resourceLog.Resource) st

/-- The three nested loops of `ConsumeLogs`, from the initial locals. -/
def consumeLoops (convert : LogRecord → Resource → Event × Option Error) (ld : Logs) :
    LoopState :=
  ld.ResourceLogs.foldl (consumeResource convert) ⟨0, 0, []⟩

/-- The method `ConsumeLogs` with the converter it calls as a parameter, so
that converters which fail on some records are covered too. -/
def ConsumeLogsWith (convert : LogRecord → Resource → Event × Option Error) (net : Net)
    (e : securityEventExporter) (ld : Logs) : Option Error × securityEventExporter :=
  let st := consumeLoops convert ld
  let securityEvents := st.securityEvents
  -- Update metrics
  let e := { e with metrics := { e.metrics with
    logsReceived := e.metrics.logsReceived + (st.totalLogRecords : Int)
    conversionErrors := e.metrics.conversionErrors + (st.conversionErrors : Int) } }
  -- Send all security events in a single batch
  if securityEvents.length > 0 then
    match sendSecurityEventBatch net e securityEvents with
    | (some err, e) =>
      (some err, { e with metrics := { e.metrics with
        eventsFailed := e.metrics.eventsFailed + (securityEvents.length : Int) } })
    | (none, e) =>
      (none, { e with metrics := { e.metrics with
        eventsExported := e.metrics.eventsExported + (securityEvents.length : Int) } })
  else
    (none, e)

/-- The method `ConsumeLogs`. -/
def ConsumeLogs (px : Pdata) (net : Net) (e : securityEventExporter) (ld : Logs) :
    Option Error × securityEventExporter :=
  ConsumeLogsWith (convertLogToSecurityEvent px e.config) net e ld

/-- A sequence of `ConsumeLogs` calls, each with its own transport outcomes. -/
def consumeAll (convert : LogRecord → Resource → Event × Option Error)
    (e : securityEventExporter) (calls : List (Net × Logs)) : securityEventExporter :=
  calls.foldl (fun e c => (ConsumeLogsWith convert c.1 e c.2).2) e

/-! ## Header names -/

/-- The function `strings.ToLower`: every character of `s` is mapped by
`unicode.ToLower`, which is the argument `lower`. -/
def ToLower (lower : Char → Char) (s : String) : String :=
  String.mk (s.data.map lower)

/-- Whether the characters `sub` stand at the start of `s`. -/
def startsWith : List Char → List Char → Bool
  | _, [] => true
  | [], _ :: _ => false
  | c :: s, d :: sub => c == d && startsWith s sub

/-- Whether the characters `sub` occur in `s` as a contiguous run. -/
def containsChars : List Char → List Char → Bool
  | [], sub => startsWith [] sub
  | c :: s, sub => startsWith (c :: s) sub || containsChars s sub

/-- The function `strings.Contains`. -/
def Contains (s substr : String) : Bool :=
  containsChars s.data substr.data

/-- The local table `sensitiveHeaders` of `isSensitiveHeader`. -/
def sensitiveHeaders : List String :=
  ["authorization", "cookie", "x-api-key", "x-auth-token"]

/-- The function `isSensitiveHeader`. -/
def isSensitiveHeader (lower : Char → Char) (headerName : String) : Bool :=
  let headerLower := ToLower lower headerName
  sensitiveHeaders.any (fun sensitive => Contains headerLower sensitive)

/-! ## Reference definitions, following the specification's wording -/

/-- The header name contains `name`, compared without regard to letter case:
some contiguous part of it equals `name` once both are put in lower case. -/
def containsIgnoringCase (lower : Char → Char) (headerName name : String) : Prop :=
  ∃ pre mid post : String,
    headerName = pre ++ mid ++ post ∧ ToLower lower mid = ToLower lower name

/-- The leaf records of an inbound hierarchy in traversal order: resource
groups in order, scope groups within each in order, records within each in
order; every record is paired with the resource of its own resource group. -/
def traversal (ld : Logs) : List (LogRecord × Resource) :=
  ld.ResourceLogs.flatMap (fun rl =>
    rl.ScopeLogs.flatMap (fun sl => sl.LogRecords.map (fun r => (r, rl.Resource))))

/-- The successfully converted records of the traversal, in traversal order. -/
def successes (convert : LogRecord → Resource → Event × Option Error) (ld : Logs) :
    List (LogRecord × Resource) :=
  (traversal ld).filter (fun p => (convert p.1 p.2).2.isNone)

/-- The names the specification lists as sensitive. -/
def specSensitiveNames : List String :=
  ["authorization", "cookie", "api-key", "auth-token"]

/-- The batch accumulated by one `ConsumeLogs` call. -/
def batchOf (convert : LogRecord → Resource → Event × Option Error) (ld : Logs) : List Event :=
  (consumeLoops convert ld).securityEvents

/-- The exporter at the moment `ConsumeLogs` reaches its send step: the
received and conversion-error counters are updated, nothing else. -/
def atSend (convert : LogRecord → Resource → Event × Option Error)
    (e : securityEventExporter) (ld : Logs) : securityEventExporter :=
  { e with metrics := { e.metrics with
    logsReceived := e.metrics.logsReceived + ((consumeLoops convert ld).totalLogRecords : Int)
    conversionErrors :=
      e.metrics.conversionErrors + ((consumeLoops convert ld).conversionErrors : Int) } }

/-- The outcome of the send step of one `ConsumeLogs` call on its batch. -/
def sendOutcome (convert : LogRecord → Resource → Event × Option Error) (net : Net)
    (e : securityEventExporter) (ld : Logs) : Option Error :=
  (sendSecurityEventBatch net (atSend convert e ld) (batchOf convert ld)).1

/-- The value written last for key `k` in a sequence of writes. -/
def lastWritten {β : Type} (k : String) (writes : List (String × β)) : Option β :=
  ((writes.filter (fun kv => kv.1 = k)).getLast?).map Prod.snd

/-- The keys of an attribute map. -/
def keysOf {β : Type} (m : List (String × β)) : List String :=
  m.map Prod.fst

/-- The total number of leaf log records over all resource and scope groups. -/
def leafCount (ld : Logs) : Nat :=
  (ld.ResourceLogs.map (fun rl => (rl.ScopeLogs.map (fun sl => sl.LogRecords.length)).sum)).sum

/-- Step 1 of the conversion: the default attributes, verbatim. -/
def defaultWrites (config : Config) : List (String × Iface) :=
  config.DefaultAttributes

/-- Step 2 of the conversion: the resource attributes. -/
def resourceWrites (px : Pdata) (resource : Resource) : List (String × Iface) :=
  resource.Attributes.map (fun kv => ("resource." ++ kv.1, Iface.str (px.AsString kv.2)))

/-- Step 3 of the conversion: the record attributes. -/
def attributeWrites (px : Pdata) (logRecord : LogRecord) : List (String × Iface) :=
  logRecord.Attributes.map (fun kv => ("attributes." ++ kv.1, Iface.str (px.AsString kv.2)))

/-- Step 4 of the conversion: the record fields. -/
def fieldWrites (px : Pdata) (logRecord : LogRecord) : List (String × Iface) :=
  [("timestamp", Iface.str (px.FormatRFC3339 logRecord.Timestamp)),
   ("severity", Iface.str logRecord.SeverityText),
   ("severity_number", Iface.severityNumber logRecord.SeverityNumber)]

/-- Step 5 of the conversion: the trace and span identifiers, when non-empty. -/
def traceWrites (px : Pdata) (logRecord : LogRecord) : List (String × Iface) :=
  (if IsEmpty logRecord.TraceID then []
    else [("trace_id", Iface.str (px.TraceIDString logRecord.TraceID))]) ++
  (if IsEmpty logRecord.SpanID then []
    else [("span_id", Iface.str (px.SpanIDString logRecord.SpanID))])

/-- Step 6 of the conversion: the message, for a textual or binary body. -/
def messageWrites (px : Pdata) (logRecord : LogRecord) : List (String × Iface) :=
  match logRecord.Body with
  | .str s => [("message", Iface.str s)]
  | .bytes bs => [("message", Iface.str (px.BytesToString bs))]
  | _ => []

/-- The six steps of the conversion in their fixed order. -/
def conversionSteps (px : Pdata) (config : Config) (logRecord : LogRecord)
    (resource : Resource) : List (List (String × Iface)) :=
  [defaultWrites config, resourceWrites px resource, attributeWrites px logRecord,
   fieldWrites px logRecord, traceWrites px logRecord, messageWrites px logRecord]

/-- The value that the last step writing `k` writes under `k`, if any. -/
def lastStepValue (k : String) : List (List (String × Iface)) → Option Iface
  | [] => none
  | step :: later =>
    match lastStepValue k later with
    | some v => some v
    | none => lastWritten k step

/-- A sequence of map assignments `m[k] = v`, carried out in order. -/
def applyWrites (m : Event) (writes : List (String × Iface)) : Event :=
  writes.foldl (fun ev kv => mapSet ev kv.1 kv.2) m

/-- The bare keys that steps 4 to 6 of the conversion can write. -/
def recordKeys : List String :=
  ["timestamp", "severity", "severity_number", "trace_id", "span_id", "message"]

/-- Whether `sendSecurityEventBatch` gets as far as the transport call:
serialization and request construction both succeed. -/
def requestBuilt (net : Net) (config : Config) (securityEvents : List Event) : Bool :=
  match net.Marshal securityEvents with
  | .error _ => false
  | .ok jsonData =>
    match net.NewRequest "POST" config.Endpoint jsonData with
    | .error _ => false
    | .ok _ => true

/-! ## Sample inputs -/

/-- A configuration whose default attributes use the key `message`. -/
def messageConfig : Config where
  Endpoint := "http://localhost:8080/security-events"
  Timeout := 30 * Second
  Headers := []
  DefaultAttributes := [("message", Iface.str "from-config")]
  RetrySettings := []
  QueueSettings := []

/-- A sample of the library renderings. -/
def samplePdata : Pdata where
  AsString := fun v => match v with
    | .str s => s
    | .bool true => "true"
    | .bool false => "false"
    | .int n => toString n
    | _ => ""
  FormatRFC3339 := fun _ => "1970-01-01T00:00:00Z"
  TraceIDString := fun _ => "0102"
  SpanIDString := fun _ => "0304"
  BytesToString := fun bs => String.mk (bs.map Char.ofNat)

/-- A sample configuration. -/
def sampleConfig : Config where
  Endpoint := "http://localhost:8080/security-events"
  Timeout := 30 * Second
  Headers := []
  DefaultAttributes := [("source", Iface.str "opentelemetry-collector")]
  RetrySettings := []
  QueueSettings := []

/-- A sample log record with an integer body. -/
def sampleRecord : LogRecord where
  Timestamp := 0
  SeverityText := "WARN"
  SeverityNumber := 13
  TraceID := [1, 2]
  SpanID := []
  Attributes := [("user", Value.str "alice"), ("user", Value.str "bob")]
  Body := Value.int 7

/-- A sample resource. -/
def sampleResource : Resource where
  Attributes := [("host", Value.str "h1")]


/-- A transport on which every call succeeds and the endpoint answers 200. -/
def okNet : Net where
  Marshal := fun _ => .ok "[]"
  NewRequest := fun method url body => .ok ⟨method, url, [], body⟩
  CanonicalHeaderKey := fun k => k
  Do := fun _ => .ok ⟨200, none⟩
  Since := 5

/-- A transport on which the endpoint cannot be reached. -/
def downNet : Net where
  Marshal := fun _ => .ok "[]"
  NewRequest := fun method url body => .ok ⟨method, url, [], body⟩
  CanonicalHeaderKey := fun k => k
  Do := fun _ => .error "connection refused"
  Since := 5

mutual
/-- Whether a value holds a NaN or an infinite float, at any depth: the
exponent bits of the float are all ones. -/
def Iface.nonFinite : Iface → Bool
  | .float bits => (bits / 2 ^ 52) % 2048 == 2047
  | .list xs => nonFiniteList xs
  | .dict kvs => nonFiniteDict kvs
  | _ => false
/-- Whether some value of a list holds a NaN or an infinite float. -/
def nonFiniteList : List Iface → Bool
  | [] => false
  | x :: xs => x.nonFinite || nonFiniteList xs
/-- Whether some value of a map holds a NaN or an infinite float. -/
def nonFiniteDict : List (String × Iface) → Bool
  | [] => false
  | kv :: kvs => kv.2.nonFinite || nonFiniteDict kvs
end

/-- A transport whose `json.Marshal` rejects a batch in which some event holds
a NaN or an infinite float, with the error of `encoding/json`; on every other
batch it behaves as `okNet`. -/
def nanNet : Net where
  Marshal := fun batch =>
    if batch.any nonFiniteDict then .error "json: unsupported value: NaN"
    else okNet.Marshal batch
  NewRequest := okNet.NewRequest
  CanonicalHeaderKey := okNet.CanonicalHeaderKey
  Do := okNet.Do
  Since := okNet.Since

/-- A configuration with a default attribute whose value is the float NaN
(`.nan` in the YAML of the collector). -/
def nanConfig : Config where
  Endpoint := "http://localhost:8080/security-events"
  Timeout := 30 * Second
  Headers := []
  DefaultAttributes := [("score", Iface.float 0x7FF8000000000000)]
  RetrySettings := []
  QueueSettings := []

/-- The log record `plog.NewLogRecord()`: every field has its zero value. -/
def zeroRecord : LogRecord where
  Timestamp := 0
  SeverityText := ""
  SeverityNumber := 0
  TraceID := List.replicate 16 0
  SpanID := List.replicate 8 0
  Attributes := []
  Body := Value.empty

/-- The batch of one event that the converter yields for `zeroRecord` under
`nanConfig`: `score` (NaN), `timestamp`, `severity` and `severity_number`. -/
def nanBatch : List Event :=
  [(convertLogToSecurityEvent samplePdata nanConfig zeroRecord ⟨[]⟩).1]

/-- The metrics of a freshly created exporter (`createLogsExporter`). -/
def newMetrics : exporterMetrics where
  logsReceived := 0
  eventsExported := 0
  eventsFailed := 0
  conversionErrors := 0
  httpErrors := 0
  httpRequests := 0
  httpDurations := []

/-- A freshly created exporter with the sample configuration. -/
def sampleExporter : securityEventExporter where
  config := sampleConfig
  metrics := newMetrics
  sendLog := []

/-- A freshly created exporter with the configuration `nanConfig`. -/
def nanExporter : securityEventExporter where
  config := nanConfig
  metrics := newMetrics
  sendLog := []

/-- A sample inbound unit: one resource group, one scope group, two records. -/
def sampleLogs : Logs where
  ResourceLogs := [⟨sampleResource, [⟨[sampleRecord, sampleRecord]⟩]⟩]

/-- A converter that rejects every record. -/
def failingConvert : LogRecord → Resource → Event × Option Error :=
  fun _ _ => ([], some "conversion failed")

/-- The converter of the sample configuration. -/
def sampleConvert : LogRecord → Resource → Event × Option Error :=
  convertLogToSecurityEvent samplePdata sampleConfig

/-- The empty inbound unit `plog.NewLogs()`. -/
def NewLogs : Logs where
  ResourceLogs := []

/-- The test case `zero timeout` of `TestConfigValidation`. -/
def zeroTimeoutConfig : Config where
  Endpoint := "https://example.com/events"
  Timeout := 0
  Headers := []
  DefaultAttributes := []
  RetrySettings := []
  QueueSettings := []

/-- The lower-casing of ASCII letters, on which `unicode.ToLower` agrees. -/
def asciiLower : Char → Char :=
  Char.toLower

/-! ## Maps and write sequences -/

theorem mapGet_mapSet {β : Type} (m : List (String × β)) (k k' : String) (v : β) :
    mapGet (mapSet m k v) k' = if k = k' then some v else mapGet m k' := by
  induction m with
  | nil => simp [mapSet, mapGet]
  | cons kv m ih =>
    obtain ⟨k1, v1⟩ := kv
    simp only [mapSet, mapGet]
    split_ifs with h1 h2 h3 <;> simp_all [mapGet]

theorem lastWritten_nil {β : Type} (k : String) :
    lastWritten k ([] : List (String × β)) = none := by
  simp [lastWritten]

theorem lastWritten_cons {β : Type} (k : String) (kv : String × β) (ws : List (String × β)) :
    lastWritten k (kv :: ws) =
      match lastWritten k ws with
      | some v => some v
      | none => if kv.1 = k then some kv.2 else none := by
  unfold lastWritten
  by_cases h : kv.1 = k
  · rw [List.filter_cons]
    simp only [h, decide_True, if_true]
    cases hf : List.filter (fun kv => decide (kv.1 = k)) ws with
    | nil => simp
    | cons a l =>
      rw [List.getLast?_cons_cons]
      cases hl : (a :: l).getLast? with
      | none => simp at hl
      | some x => simp
  · rw [List.filter_cons]
    simp only [h, decide_False, Bool.false_eq_true, if_false]
    generalize Option.map Prod.snd (List.filter (fun kv => decide (kv.1 = k)) ws).getLast? = o
    cases o <;> simp

theorem lastWritten_of_not_mem {β : Type} (k : String) (ws : List (String × β))
    (h : k ∉ keysOf ws) : lastWritten k ws = none := by
  induction ws with
  | nil => exact lastWritten_nil k
  | cons kv ws ih =>
    simp only [keysOf, List.map_cons, List.mem_cons, not_or] at h
    have h2 : kv.1 ≠ k := fun e => h.1 e.symm
    rw [lastWritten_cons, ih h.2]
    simp [h2]

theorem lastWritten_of_mem {β : Type} (k : String) (ws : List (String × β))
    (h : k ∈ keysOf ws) : ∃ v, lastWritten k ws = some v := by
  induction ws with
  | nil => simp [keysOf] at h
  | cons kv ws ih =>
    rw [lastWritten_cons]
    cases hl : lastWritten k ws with
    | some v => exact ⟨v, rfl⟩
    | none =>
      simp only [keysOf, List.map_cons, List.mem_cons] at h
      rcases h with h | h
      · exact ⟨kv.2, by simp [h]⟩
      · obtain ⟨v, hv⟩ := ih h
        rw [hl] at hv
        cases hv

theorem lastWritten_of_nodup {β : Type} (k : String) (v : β) (ws : List (String × β))
    (hn : (keysOf ws).Nodup) (hm : (k, v) ∈ ws) : lastWritten k ws = some v := by
  induction ws with
  | nil => cases hm
  | cons kv ws ih =>
    simp only [keysOf, List.map_cons, List.nodup_cons] at hn
    rw [lastWritten_cons]
    rcases List.mem_cons.mp hm with h | h
    · subst h
      rw [lastWritten_of_not_mem k ws hn.1]
      simp
    · rw [ih hn.2 h]

theorem append_left_cancel_str (p a b : String) (h : p ++ a = p ++ b) : a = b := by
  have h2 := congrArg String.data h
  simp only [String.data_append] at h2
  exact String.ext (List.append_cancel_left h2)

theorem lastWritten_map_key {α β : Type} (p k : String) (g : α → β) (ws : List (String × α)) :
    lastWritten (p ++ k) (ws.map (fun kv => (p ++ kv.1, g kv.2))) =
      (lastWritten k ws).map g := by
  induction ws with
  | nil => simp [lastWritten_nil]
  | cons kv ws ih =>
    rw [List.map_cons, lastWritten_cons, lastWritten_cons, ih]
    cases lastWritten k ws with
    | some v => simp
    | none =>
      by_cases h : kv.1 = k
      · simp [h]
      · have h2 : p ++ kv.1 ≠ p ++ k := fun e => h (append_left_cancel_str p _ _ e)
        simp [h, h2]

theorem mapGet_applyWrites (m : Event) (ws : List (String × Iface)) (k : String) :
    mapGet (applyWrites m ws) k =
      match lastWritten k ws with
      | some v => some v
      | none => mapGet m k := by
  induction ws generalizing m with
  | nil => simp [applyWrites, lastWritten_nil]
  | cons kv ws ih =>
    have e : applyWrites m (kv :: ws) = applyWrites (mapSet m kv.1 kv.2) ws := rfl
    rw [e, ih, lastWritten_cons, mapGet_mapSet]
    cases lastWritten k ws <;> simp
    split_ifs <;> rfl

theorem mapGet_foldl_applyWrites (m : Event) (steps : List (List (String × Iface)))
    (k : String) :
    mapGet (steps.foldl applyWrites m) k =
      match lastStepValue k steps with
      | some v => some v
      | none => mapGet m k := by
  induction steps generalizing m with
  | nil => simp [lastStepValue]
  | cons w later ih =>
    rw [List.foldl_cons, ih, mapGet_applyWrites]
    simp only [lastStepValue]
    cases lastStepValue k later <;> simp

theorem convert_eq_steps (px : Pdata) (config : Config) (logRecord : LogRecord)
    (resource : Resource) :
    (convertLogToSecurityEvent px config logRecord resource).1 =
      (conversionSteps px config logRecord resource).foldl applyWrites [] := by
  obtain ⟨ts, st, sn, tid, sid, attrs, body⟩ := logRecord
  cases body <;> cases ht : IsEmpty tid <;> cases hs : IsEmpty sid <;>
    simp [convertLogToSecurityEvent, conversionSteps, applyWrites, defaultWrites,
      resourceWrites, attributeWrites, fieldWrites, traceWrites, messageWrites,
      List.foldl_map, ht, hs, Value.Type, Value.Str, Value.BytesAsRaw]

theorem convert_get (px : Pdata) (config : Config) (logRecord : LogRecord)
    (resource : Resource) (k : String) :
    mapGet (convertLogToSecurityEvent px config logRecord resource).1 k =
      lastStepValue k (conversionSteps px config logRecord resource) := by
  rw [convert_eq_steps, mapGet_foldl_applyWrites]
  cases lastStepValue k (conversionSteps px config logRecord resource) <;> simp [mapGet]

/-! ## Keys written by the steps of the conversion -/

theorem append_ne_of_take (p k s : String) (h : s.data.take p.data.length ≠ p.data) :
    p ++ k ≠ s := by
  intro e
  apply h
  rw [← e, String.data_append]
  simp

theorem attributes_key_not_record (a : String) : "attributes." ++ a ∉ recordKeys := by
  intro h
  simp only [recordKeys, List.mem_cons, List.mem_singleton, List.not_mem_nil, or_false] at h
  rcases h with h | h | h | h | h | h <;>
    exact absurd h (append_ne_of_take _ _ _ (by decide))

theorem resource_key_not_record (a : String) : "resource." ++ a ∉ recordKeys := by
  intro h
  simp only [recordKeys, List.mem_cons, List.mem_singleton, List.not_mem_nil, or_false] at h
  rcases h with h | h | h | h | h | h <;>
    exact absurd h (append_ne_of_take _ _ _ (by decide))

theorem resource_key_not_attribute (px : Pdata) (logRecord : LogRecord) (a : String) :
    "resource." ++ a ∉ keysOf (attributeWrites px logRecord) := by
  intro h
  simp only [keysOf, attributeWrites, List.map_map, List.mem_map, Function.comp] at h
  obtain ⟨kv, _, e⟩ := h
  have h2 := congrArg String.data e
  simp [String.data_append] at h2

theorem fieldWrites_none (px : Pdata) (logRecord : LogRecord) (k : String)
    (h : k ∉ recordKeys) : lastWritten k (fieldWrites px logRecord) = none := by
  apply lastWritten_of_not_mem
  intro hm
  apply h
  simp only [keysOf, fieldWrites, List.map_cons, List.map_nil, List.mem_cons,
    List.mem_singleton, List.not_mem_nil, or_false] at hm
  simp only [recordKeys, List.mem_cons, List.mem_singleton, List.not_mem_nil, or_false]
  tauto

theorem traceWrites_none (px : Pdata) (logRecord : LogRecord) (k : String)
    (h1 : k ≠ "trace_id") (h2 : k ≠ "span_id") :
    lastWritten k (traceWrites px logRecord) = none := by
  apply lastWritten_of_not_mem
  intro hm
  unfold traceWrites keysOf at hm
  cases ht : IsEmpty logRecord.TraceID <;> cases hs : IsEmpty logRecord.SpanID <;>
    simp [ht, hs] at hm <;> tauto

theorem messageWrites_none (px : Pdata) (logRecord : LogRecord) (k : String)
    (h : k ≠ "message") : lastWritten k (messageWrites px logRecord) = none := by
  apply lastWritten_of_not_mem
  intro hm
  unfold messageWrites keysOf at hm
  cases hb : logRecord.Body <;> simp [hb] at hm <;> exact h hm

theorem messageWrites_other (px : Pdata) (logRecord : LogRecord)
    (h1 : logRecord.Body.Type ≠ ValueType.Str) (h2 : logRecord.Body.Type ≠ ValueType.Bytes) :
    messageWrites px logRecord = [] := by
  unfold messageWrites
  cases hb : logRecord.Body <;> simp_all [Value.Type]

theorem record_steps_none (px : Pdata) (logRecord : LogRecord) (k : String)
    (h : k ∉ recordKeys) :
    lastWritten k (fieldWrites px logRecord) = none ∧
    lastWritten k (traceWrites px logRecord) = none ∧
    lastWritten k (messageWrites px logRecord) = none := by
  refine ⟨fieldWrites_none px logRecord k h, traceWrites_none px logRecord k ?_ ?_,
    messageWrites_none px logRecord k ?_⟩ <;>
  · intro e
    apply h
    rw [e]
    decide

/-! ## The converter -/

/-- Claim C1: the event returned by `convertLogToSecurityEvent` has, for every
key `k` of the record's attributes, the key `attributes.k`, and for every key
`k` of the resource's attributes, the key `resource.k`; the value stored there
is the string rendering of the attribute value written last for `k`. -/
theorem convert_attribute_keys (px : Pdata) (config : Config) (logRecord : LogRecord)
    (resource : Resource) :
    (∀ k, k ∈ keysOf logRecord.Attributes →
      ∃ v, lastWritten k logRecord.Attributes = some v ∧
        mapGet (convertLogToSecurityEvent px config logRecord resource).1 ("attributes." ++ k)
          = some (Iface.str (px.AsString v))) ∧
    (∀ k, k ∈ keysOf resource.Attributes →
      ∃ v, lastWritten k resource.Attributes = some v ∧
        mapGet (convertLogToSecurityEvent px config logRecord resource).1 ("resource." ++ k)
          = some (Iface.str (px.AsString v))) := by
  constructor
  · intro k hk
    obtain ⟨v, hv⟩ := lastWritten_of_mem k _ hk
    refine ⟨v, hv, ?_⟩
    obtain ⟨h4, h5, h6⟩ := record_steps_none px logRecord _ (attributes_key_not_record k)
    have h3 : lastWritten ("attributes." ++ k) (attributeWrites px logRecord)
        = some (Iface.str (px.AsString v)) := by
      unfold attributeWrites
      rw [lastWritten_map_key "attributes." k (fun v => Iface.str (px.AsString v)), hv]
      rfl
    rw [convert_get]
    simp only [conversionSteps, lastStepValue, h3, h4, h5, h6]
  · intro k hk
    obtain ⟨v, hv⟩ := lastWritten_of_mem k _ hk
    refine ⟨v, hv, ?_⟩
    obtain ⟨h4, h5, h6⟩ := record_steps_none px logRecord _ (resource_key_not_record k)
    have h3 := lastWritten_of_not_mem _ _ (resource_key_not_attribute px logRecord k)
    have h2 : lastWritten ("resource." ++ k) (resourceWrites px resource)
        = some (Iface.str (px.AsString v)) := by
      unfold resourceWrites
      rw [lastWritten_map_key "resource." k (fun v => Iface.str (px.AsString v)), hv]
      rfl
    rw [convert_get]
    simp only [conversionSteps, lastStepValue, h2, h3, h4, h5, h6]

/-- Witness of C1 on the sample record, whose attribute `user` is written twice. -/
theorem convert_attribute_keys_witness :
    "user" ∈ keysOf sampleRecord.Attributes ∧
    ∃ v, lastWritten "user" sampleRecord.Attributes = some v ∧
      mapGet (convertLogToSecurityEvent samplePdata sampleConfig sampleRecord sampleResource).1
        ("attributes." ++ "user") = some (Iface.str (samplePdata.AsString v)) :=
  ⟨by decide,
    (convert_attribute_keys samplePdata sampleConfig sampleRecord sampleResource).1 "user"
      (by decide)⟩

/-- Claim C2: `convertLogToSecurityEvent` is last-write-wins in the order
default attributes, resource attributes, record attributes, record fields,
trace and span identifiers, message: every key holds the value written by the
last step that writes it. The keys `timestamp`, `severity` and
`severity_number` always hold the record's own fields, and a default attribute
whose key no later step writes keeps its configured value. -/
theorem convert_last_write_wins (px : Pdata) (config : Config) (logRecord : LogRecord)
    (resource : Resource) :
    (∀ k, mapGet (convertLogToSecurityEvent px config logRecord resource).1 k =
      lastStepValue k (conversionSteps px config logRecord resource)) ∧
    (mapGet (convertLogToSecurityEvent px config logRecord resource).1 "timestamp" =
        some (Iface.str (px.FormatRFC3339 logRecord.Timestamp)) ∧
      mapGet (convertLogToSecurityEvent px config logRecord resource).1 "severity" =
        some (Iface.str logRecord.SeverityText) ∧
      mapGet (convertLogToSecurityEvent px config logRecord resource).1 "severity_number" =
        some (Iface.severityNumber logRecord.SeverityNumber)) ∧
    (∀ k v, (keysOf config.DefaultAttributes).Nodup → (k, v) ∈ config.DefaultAttributes →
      (∀ step ∈ (conversionSteps px config logRecord resource).tail, k ∉ keysOf step) →
      mapGet (convertLogToSecurityEvent px config logRecord resource).1 k = some v) := by
  refine ⟨convert_get px config logRecord resource, ⟨?_, ?_, ?_⟩, ?_⟩
  · rw [convert_get]
    have h6 := messageWrites_none px logRecord "timestamp" (by decide)
    have h5 := traceWrites_none px logRecord "timestamp" (by decide) (by decide)
    have h4 : lastWritten "timestamp" (fieldWrites px logRecord) =
        some (Iface.str (px.FormatRFC3339 logRecord.Timestamp)) := rfl
    simp only [conversionSteps, lastStepValue, h4, h5, h6]
  · rw [convert_get]
    have h6 := messageWrites_none px logRecord "severity" (by decide)
    have h5 := traceWrites_none px logRecord "severity" (by decide) (by decide)
    have h4 : lastWritten "severity" (fieldWrites px logRecord) =
        some (Iface.str logRecord.SeverityText) := rfl
    simp only [conversionSteps, lastStepValue, h4, h5, h6]
  · rw [convert_get]
    have h6 := messageWrites_none px logRecord "severity_number" (by decide)
    have h5 := traceWrites_none px logRecord "severity_number" (by decide) (by decide)
    have h4 : lastWritten "severity_number" (fieldWrites px logRecord) =
        some (Iface.severityNumber logRecord.SeverityNumber) := rfl
    simp only [conversionSteps, lastStepValue, h4, h5, h6]
  · intro k v hn hm hlater
    have h1 := lastWritten_of_nodup k v _ hn hm
    have h2 := lastWritten_of_not_mem k _
      (hlater (resourceWrites px resource) (by simp [conversionSteps]))
    have h3 := lastWritten_of_not_mem k _
      (hlater (attributeWrites px logRecord) (by simp [conversionSteps]))
    have h4 := lastWritten_of_not_mem k _
      (hlater (fieldWrites px logRecord) (by simp [conversionSteps]))
    have h5 := lastWritten_of_not_mem k _
      (hlater (traceWrites px logRecord) (by simp [conversionSteps]))
    have h6 := lastWritten_of_not_mem k _
      (hlater (messageWrites px logRecord) (by simp [conversionSteps]))
    rw [convert_get]
    simp only [conversionSteps, lastStepValue, defaultWrites, h1, h2, h3, h4, h5, h6]

/-- Witness of C2: the default attribute `source` of the sample configuration
is written by no later step and stays in the event. -/
theorem convert_last_write_wins_witness :
    (keysOf sampleConfig.DefaultAttributes).Nodup ∧
    ("source", Iface.str "opentelemetry-collector") ∈ sampleConfig.DefaultAttributes ∧
    (∀ step ∈ (conversionSteps samplePdata sampleConfig sampleRecord sampleResource).tail,
      "source" ∉ keysOf step) ∧
    mapGet (convertLogToSecurityEvent samplePdata sampleConfig sampleRecord sampleResource).1
      "source" = some (Iface.str "opentelemetry-collector") :=
  have hn : (keysOf sampleConfig.DefaultAttributes).Nodup := by decide
  have hm : ("source", Iface.str "opentelemetry-collector") ∈ sampleConfig.DefaultAttributes :=
    List.mem_singleton.mpr rfl
  have hl : ∀ step ∈ (conversionSteps samplePdata sampleConfig sampleRecord sampleResource).tail,
      "source" ∉ keysOf step := by decide
  ⟨hn, hm, hl,
    (convert_last_write_wins samplePdata sampleConfig sampleRecord sampleResource).2.2
      "source" (Iface.str "opentelemetry-collector") hn hm hl⟩

/-- Claim C3, as stated, fails: with a default attribute named `message` the
event of a record whose body is an integer has a `message` key. -/
theorem convert_message_counterexample :
    ¬ (∀ (px : Pdata) (config : Config) (logRecord : LogRecord) (resource : Resource),
      logRecord.Body.Type ≠ ValueType.Str → logRecord.Body.Type ≠ ValueType.Bytes →
      mapGet (convertLogToSecurityEvent px config logRecord resource).1 "message" = none ∧
      (convertLogToSecurityEvent px config logRecord resource).2 = none) := by
  intro h
  have h1 := (h samplePdata messageConfig sampleRecord sampleResource
    (by decide) (by decide)).1
  have h2 : mapGet (convertLogToSecurityEvent samplePdata messageConfig sampleRecord
      sampleResource).1 "message" = some (Iface.str "from-config") := rfl
  rw [h2] at h1
  cases h1

/-- Claim C3, amended: for a record whose body is neither textual nor binary
the conversion writes no `message` of its own: the `message` entry of the event
is exactly the one the default attributes wrote, if any, and no error is
returned. -/
theorem convert_message_omitted (px : Pdata) (config : Config) (logRecord : LogRecord)
    (resource : Resource) (h1 : logRecord.Body.Type ≠ ValueType.Str)
    (h2 : logRecord.Body.Type ≠ ValueType.Bytes) :
    mapGet (convertLogToSecurityEvent px config logRecord resource).1 "message" =
      lastWritten "message" config.DefaultAttributes ∧
    (convertLogToSecurityEvent px config logRecord resource).2 = none := by
  refine ⟨?_, rfl⟩
  have h6 : lastWritten "message" (messageWrites px logRecord) = none := by
    rw [messageWrites_other px logRecord h1 h2]
    exact lastWritten_nil _
  have h5 := traceWrites_none px logRecord "message" (by decide) (by decide)
  have h4 : lastWritten "message" (fieldWrites px logRecord) = none := rfl
  have h3 : lastWritten "message" (attributeWrites px logRecord) = none := by
    apply lastWritten_of_not_mem
    intro hm
    simp only [keysOf, attributeWrites, List.map_map, List.mem_map, Function.comp] at hm
    obtain ⟨kv, _, e⟩ := hm
    exact append_ne_of_take _ _ _ (by decide) e
  have h2 : lastWritten "message" (resourceWrites px resource) = none := by
    apply lastWritten_of_not_mem
    intro hm
    simp only [keysOf, resourceWrites, List.map_map, List.mem_map, Function.comp] at hm
    obtain ⟨kv, _, e⟩ := hm
    exact append_ne_of_take _ _ _ (by decide) e
  rw [convert_get]
  simp only [conversionSteps, lastStepValue, defaultWrites, h2, h3, h4, h5, h6]

/-- Witness of the amended C3 on the sample record, whose body is an integer. -/
theorem convert_message_omitted_witness :
    sampleRecord.Body.Type ≠ ValueType.Str ∧ sampleRecord.Body.Type ≠ ValueType.Bytes ∧
    mapGet (convertLogToSecurityEvent samplePdata sampleConfig sampleRecord sampleResource).1
      "message" = lastWritten "message" sampleConfig.DefaultAttributes ∧
    (convertLogToSecurityEvent samplePdata sampleConfig sampleRecord sampleResource).2 = none :=
  ⟨by decide, by decide,
    convert_message_omitted samplePdata sampleConfig sampleRecord sampleResource
      (by decide) (by decide)⟩

/-! ## The sender -/

theorem send_frame (net : Net) (e : securityEventExporter) (batch : List Event) :
    (sendSecurityEventBatch net e batch).2.config = e.config ∧
    (sendSecurityEventBatch net e batch).2.sendLog = e.sendLog ++ [batch] ∧
    (sendSecurityEventBatch net e batch).2.metrics.logsReceived = e.metrics.logsReceived ∧
    (sendSecurityEventBatch net e batch).2.metrics.conversionErrors
      = e.metrics.conversionErrors ∧
    (sendSecurityEventBatch net e batch).2.metrics.eventsExported = e.metrics.eventsExported ∧
    (sendSecurityEventBatch net e batch).2.metrics.eventsFailed = e.metrics.eventsFailed := by
  cases hm : net.Marshal batch with
  | error err => simp [sendSecurityEventBatch, hm, incHttpErrors]
  | ok js =>
    cases hr : net.NewRequest "POST" e.config.Endpoint js with
    | error err => simp [sendSecurityEventBatch, hm, hr, incHttpErrors]
    | ok req =>
      cases hd : net.Do (setHeaders net e.config req) with
      | error err => simp [sendSecurityEventBatch, hm, hr, hd, incHttpErrors]
      | ok resp =>
        by_cases hs : resp.StatusCode < 200 ∨ resp.StatusCode ≥ 300
        · simp [sendSecurityEventBatch, hm, hr, hd, hs, incHttpErrors]
        · simp [sendSecurityEventBatch, hm, hr, hd, hs, incHttpErrors]

/-- Claim C8: when serialization, request construction and the transport call
succeed with status code `s`, `sendSecurityEventBatch` returns success exactly
when `200 ≤ s < 300` and an error for every other `s`; the result is the same
for every response body, readable or not. -/
theorem send_status_classification (net : Net) (e : securityEventExporter)
    (batch : List Event) (jsonData : String) (req : Request) (s : Int)
    (body : Option (Except Error String))
    (hm : net.Marshal batch = .ok jsonData)
    (hr : net.NewRequest "POST" e.config.Endpoint jsonData = .ok req)
    (hd : net.Do (setHeaders net e.config req) = .ok ⟨s, body⟩) :
    ((sendSecurityEventBatch net e batch).1 = none ↔ 200 ≤ s ∧ s < 300) ∧
    (sendSecurityEventBatch net e batch).1 =
      if 200 ≤ s ∧ s < 300 then none
      else some ("HTTP request failed with status: " ++ toString s) := by
  by_cases hs : 200 ≤ s ∧ s < 300
  · have hs2 : ¬ (s < 200 ∨ s ≥ 300) := by omega
    simp [sendSecurityEventBatch, hm, hr, hd, hs2, hs]
  · have hs2 : s < 200 ∨ s ≥ 300 := by omega
    simp [sendSecurityEventBatch, hm, hr, hd, hs2, hs]

/-- Witness of C8: the endpoint answers 200 on the sample transport. -/
theorem send_status_classification_witness :
    okNet.Marshal [] = .ok "[]" ∧
    ((sendSecurityEventBatch okNet sampleExporter []).1 = none ↔
      (200 : Int) ≤ 200 ∧ (200 : Int) < 300) :=
  ⟨rfl, (send_status_classification okNet sampleExporter [] "[]"
    ⟨"POST", sampleConfig.Endpoint, [], "[]"⟩ 200 none rfl rfl rfl).1⟩

/-- Claim C9, as stated, fails: the default attribute `score` of `nanConfig`
is the float NaN, so the event converted from a log record cannot be
serialized; `sendSecurityEventBatch` returns the serialization error before
any request exists, the request counter stays at zero and no duration sample
is appended. -/
theorem send_metrics_counterexample :
    (sendSecurityEventBatch nanNet nanExporter nanBatch).1 =
      some "failed to marshal security event batch: json: unsupported value: NaN" ∧
    (sendSecurityEventBatch nanNet nanExporter nanBatch).2.metrics.httpRequests = 0 ∧
    (sendSecurityEventBatch nanNet nanExporter nanBatch).2.metrics.httpDurations = [] ∧
    ¬ ((sendSecurityEventBatch nanNet nanExporter nanBatch).2.metrics.httpRequests
        = nanExporter.metrics.httpRequests + 1 ∧
      (sendSecurityEventBatch nanNet nanExporter nanBatch).2.metrics.httpDurations.length
        = nanExporter.metrics.httpDurations.length + 1) := by
  have h1 : (sendSecurityEventBatch nanNet nanExporter nanBatch).1 =
      some "failed to marshal security event batch: json: unsupported value: NaN" := by
    decide
  have h2 : (sendSecurityEventBatch nanNet nanExporter nanBatch).2.metrics.httpRequests
      = 0 := rfl
  have h3 : (sendSecurityEventBatch nanNet nanExporter nanBatch).2.metrics.httpDurations
      = [] := rfl
  have h4 : nanExporter.metrics.httpRequests = 0 := rfl
  refine ⟨h1, h2, h3, ?_⟩
  intro h
  rw [h2, h4] at h
  omega

/-- Claim C9, amended: an invocation of `sendSecurityEventBatch` that gets as
far as the transport call increases `httpRequests` by one and appends one
sample to `httpDurations`; one that fails at serialization or request
construction returns an error and leaves both unchanged; in every case
`httpErrors` grows by one when an error is returned and by zero otherwise. -/
theorem send_metrics (net : Net) (e : securityEventExporter) (batch : List Event) :
    (sendSecurityEventBatch net e batch).2.metrics.httpErrors =
      e.metrics.httpErrors + (if (sendSecurityEventBatch net e batch).1 = none then 0 else 1) ∧
    (requestBuilt net e.config batch = true →
      (sendSecurityEventBatch net e batch).2.metrics.httpRequests
        = e.metrics.httpRequests + 1 ∧
      (sendSecurityEventBatch net e batch).2.metrics.httpDurations
        = e.metrics.httpDurations ++ [net.Since]) ∧
    (requestBuilt net e.config batch = false →
      (sendSecurityEventBatch net e batch).1 ≠ none ∧
      (sendSecurityEventBatch net e batch).2.metrics.httpRequests = e.metrics.httpRequests ∧
      (sendSecurityEventBatch net e batch).2.metrics.httpDurations
        = e.metrics.httpDurations) := by
  cases hm : net.Marshal batch with
  | error err => simp [sendSecurityEventBatch, requestBuilt, hm, incHttpErrors]
  | ok js =>
    cases hr : net.NewRequest "POST" e.config.Endpoint js with
    | error err => simp [sendSecurityEventBatch, requestBuilt, hm, hr, incHttpErrors]
    | ok req =>
      cases hd : net.Do (setHeaders net e.config req) with
      | error err => simp [sendSecurityEventBatch, requestBuilt, hm, hr, hd, incHttpErrors]
      | ok resp =>
        by_cases hs : resp.StatusCode < 200 ∨ resp.StatusCode ≥ 300
        · simp [sendSecurityEventBatch, requestBuilt, hm, hr, hd, hs, incHttpErrors]
        · simp [sendSecurityEventBatch, requestBuilt, hm, hr, hd, hs, incHttpErrors]

/-- Witness of the amended C9: on the unreachable endpoint the request is
built, so the request counter grows by one and one sample is appended. -/
theorem send_metrics_witness :
    requestBuilt downNet sampleExporter.config [] = true ∧
    (sendSecurityEventBatch downNet sampleExporter []).2.metrics.httpRequests
      = sampleExporter.metrics.httpRequests + 1 ∧
    (sendSecurityEventBatch downNet sampleExporter []).2.metrics.httpDurations
      = sampleExporter.metrics.httpDurations ++ [downNet.Since] :=
  ⟨rfl, (send_metrics downNet sampleExporter []).2.1 rfl⟩

/-! ## The coordinator -/

theorem consumeRecord_counts (convert : LogRecord → Resource → Event × Option Error)
    (resource : Resource) (st : LoopState) (logRecord : LogRecord) :
    (consumeRecord convert resource st logRecord).totalLogRecords = st.totalLogRecords ∧
    (consumeRecord convert resource st logRecord).securityEvents.length
        + (consumeRecord convert resource st logRecord).conversionErrors
      = st.securityEvents.length + st.conversionErrors + 1 := by
  unfold consumeRecord
  rcases hc : convert logRecord resource with ⟨ev, err⟩
  cases err with
  | none => simp; omega
  | some x => simp; omega

theorem foldl_consumeRecord_counts (convert : LogRecord → Resource → Event × Option Error)
    (resource : Resource) (recs : List LogRecord) (st : LoopState) :
    (recs.foldl (consumeRecord convert resource) st).totalLogRecords = st.totalLogRecords ∧
    (recs.foldl (consumeRecord convert resource) st).securityEvents.length
        + (recs.foldl (consumeRecord convert resource) st).conversionErrors
      = st.securityEvents.length + st.conversionErrors + recs.length := by
  induction recs generalizing st with
  | nil => simp
  | cons r recs ih =>
    obtain ⟨h1, h2⟩ := consumeRecord_counts convert resource st r
    obtain ⟨h3, h4⟩ := ih (consumeRecord convert resource st r)
    rw [List.foldl_cons, List.length_cons]
    constructor
    · rw [h3, h1]
    · rw [h4, h2]
      omega

theorem consumeScope_counts (convert : LogRecord → Resource → Event × Option Error)
    (resource : Resource) (st : LoopState) (scopeLog : ScopeLogs) :
    (consumeScope convert resource st scopeLog).totalLogRecords
      = st.totalLogRecords + scopeLog.LogRecords.length ∧
    (consumeScope convert resource st scopeLog).securityEvents.length
        + (consumeScope convert resource st scopeLog).conversionErrors
      = st.securityEvents.length + st.conversionErrors + scopeLog.LogRecords.length := by
  unfold consumeScope
  obtain ⟨h1, h2⟩ := foldl_consumeRecord_counts convert resource scopeLog.LogRecords
    { st with totalLogRecords := st.totalLogRecords + scopeLog.LogRecords.length }
  exact ⟨h1, h2⟩

theorem foldl_consumeScope_counts (convert : LogRecord → Resource → Event × Option Error)
    (resource : Resource) (scopes : List ScopeLogs) (st : LoopState) :
    (scopes.foldl (consumeScope convert resource) st).totalLogRecords
      = st.totalLogRecords + (scopes.map (fun sl => sl.LogRecords.length)).sum ∧
    (scopes.foldl (consumeScope convert resource) st).securityEvents.length
        + (scopes.foldl (consumeScope convert resource) st).conversionErrors
      = st.securityEvents.length + st.conversionErrors
        + (scopes.map (fun sl => sl.LogRecords.length)).sum := by
  induction scopes generalizing st with
  | nil => simp
  | cons sl scopes ih =>
    obtain ⟨h1, h2⟩ := consumeScope_counts convert resource st sl
    obtain ⟨h3, h4⟩ := ih (consumeScope convert resource st sl)
    rw [List.foldl_cons, List.map_cons, List.sum_cons]
    constructor
    · rw [h3, h1]
      omega
    · rw [h4, h2]
      omega

theorem foldl_consumeResource_counts (convert : LogRecord → Resource → Event × Option Error)
    (groups : List ResourceLogs) (st : LoopState) :
    (groups.foldl (consumeResource convert) st).totalLogRecords
      = st.totalLogRecords + leafCount ⟨groups⟩ ∧
    (groups.foldl (consumeResource convert) st).securityEvents.length
        + (groups.foldl (consumeResource convert) st).conversionErrors
      = st.securityEvents.length + st.conversionErrors + leafCount ⟨groups⟩ := by
  induction groups generalizing st with
  | nil => simp [leafCount]
  | cons rl groups ih =>
    obtain ⟨h1, h2⟩ := foldl_consumeScope_counts convert rl.Resource rl.ScopeLogs st
    obtain ⟨h3, h4⟩ := ih (consumeResource convert st rl)
    have hl : leafCount ⟨rl :: groups⟩
        = (rl.ScopeLogs.map (fun sl => sl.LogRecords.length)).sum + leafCount ⟨groups⟩ := by
      simp [leafCount]
    rw [List.foldl_cons, hl]
    unfold consumeResource at h3 h4 ⊢
    constructor
    · rw [h3, h1]
      omega
    · rw [h4, h2]
      omega

theorem consumeLoops_counts (convert : LogRecord → Resource → Event × Option Error)
    (ld : Logs) :
    (consumeLoops convert ld).totalLogRecords = leafCount ld ∧
    (batchOf convert ld).length + (consumeLoops convert ld).conversionErrors = leafCount ld := by
  obtain ⟨h1, h2⟩ := foldl_consumeResource_counts convert ld.ResourceLogs ⟨0, 0, []⟩
  unfold batchOf consumeLoops
  constructor
  · rw [h1]
    simp
  · rw [h2]
    simp

theorem ConsumeLogsWith_eq (convert : LogRecord → Resource → Event × Option Error) (net : Net)
    (e : securityEventExporter) (ld : Logs) :
    ConsumeLogsWith convert net e ld =
      if (batchOf convert ld).length > 0 then
        match sendSecurityEventBatch net (atSend convert e ld) (batchOf convert ld) with
        | (some err, e1) =>
          (some err, { e1 with metrics := { e1.metrics with
            eventsFailed := e1.metrics.eventsFailed + ((batchOf convert ld).length : Int) } })
        | (none, e1) =>
          (none, { e1 with metrics := { e1.metrics with
            eventsExported := e1.metrics.eventsExported + ((batchOf convert ld).length : Int) } })
      else
        (none, atSend convert e ld) := rfl

theorem consume_sent (convert : LogRecord → Resource → Event × Option Error) (net : Net)
    (e : securityEventExporter) (ld : Logs) (hn : (batchOf convert ld).length > 0) :
    (ConsumeLogsWith convert net e ld).1 = sendOutcome convert net e ld ∧
    (ConsumeLogsWith convert net e ld).2.sendLog = e.sendLog ++ [batchOf convert ld] ∧
    (ConsumeLogsWith convert net e ld).2.metrics.logsReceived
      = e.metrics.logsReceived + ((consumeLoops convert ld).totalLogRecords : Int) ∧
    (ConsumeLogsWith convert net e ld).2.metrics.eventsExported
      = e.metrics.eventsExported
        + (if sendOutcome convert net e ld = none then ((batchOf convert ld).length : Int)
           else 0) ∧
    (ConsumeLogsWith convert net e ld).2.metrics.eventsFailed
      = e.metrics.eventsFailed
        + (if sendOutcome convert net e ld = none then 0
           else ((batchOf convert ld).length : Int)) := by
  have hf := send_frame net (atSend convert e ld) (batchOf convert ld)
  rw [ConsumeLogsWith_eq, if_pos hn]
  unfold sendOutcome
  rcases hsend : sendSecurityEventBatch net (atSend convert e ld) (batchOf convert ld)
    with ⟨err, e1⟩
  rw [hsend] at hf
  dsimp only at hf
  obtain ⟨_, h2, h3, _, h5, h6⟩ := hf
  cases err <;> simp [h2, h3, h5, h6, atSend]

theorem consume_not_sent (convert : LogRecord → Resource → Event × Option Error) (net : Net)
    (e : securityEventExporter) (ld : Logs) (hn : ¬ (batchOf convert ld).length > 0) :
    ConsumeLogsWith convert net e ld = (none, atSend convert e ld) := by
  rw [ConsumeLogsWith_eq, if_neg hn]

/-- Claim C4: one call of `ConsumeLogs` increases `logsReceived` by exactly the
number of leaf log records of the inbound hierarchy, for every converter
(failing or not) and every outcome of the send step. -/
theorem consume_logs_received (convert : LogRecord → Resource → Event × Option Error)
    (px : Pdata) (net : Net) (e : securityEventExporter) (ld : Logs) :
    (ConsumeLogsWith convert net e ld).2.metrics.logsReceived
      = e.metrics.logsReceived + (leafCount ld : Int) ∧
    (ConsumeLogs px net e ld).2.metrics.logsReceived
      = e.metrics.logsReceived + (leafCount ld : Int) := by
  have key : ∀ conv : LogRecord → Resource → Event × Option Error,
      (ConsumeLogsWith conv net e ld).2.metrics.logsReceived
        = e.metrics.logsReceived + (leafCount ld : Int) := by
    intro conv
    have hc := (consumeLoops_counts conv ld).1
    by_cases hn : (batchOf conv ld).length > 0
    · rw [(consume_sent conv net e ld hn).2.2.1, hc]
    · rw [consume_not_sent conv net e ld hn]
      simp [atSend, hc]
  exact ⟨key convert, key _⟩

theorem consume_step_sum (convert : LogRecord → Resource → Event × Option Error) (net : Net)
    (e : securityEventExporter) (ld : Logs) :
    (ConsumeLogsWith convert net e ld).2.metrics.eventsExported
        + (ConsumeLogsWith convert net e ld).2.metrics.eventsFailed
      = e.metrics.eventsExported + e.metrics.eventsFailed
        + ((batchOf convert ld).length : Int) := by
  by_cases hn : (batchOf convert ld).length > 0
  · obtain ⟨_, _, _, h4, h5⟩ := consume_sent convert net e ld hn
    rw [h4, h5]
    split_ifs <;> omega
  · rw [consume_not_sent convert net e ld hn]
    have h0 : (batchOf convert ld).length = 0 := by omega
    simp [atSend, h0]

theorem sum_filter_pos {α : Type} (f : α → Nat) (l : List α) :
    ((l.filter (fun a => decide (0 < f a))).map (fun a => (f a : Int))).sum
      = (l.map (fun a => (f a : Int))).sum := by
  induction l with
  | nil => rfl
  | cons a l ih =>
    by_cases h : 0 < f a
    · simp [List.filter_cons, h, ih]
    · have h0 : f a = 0 := by omega
      simp [List.filter_cons, h0, ih]

theorem consumeAll_sum (convert : LogRecord → Resource → Event × Option Error)
    (e0 : securityEventExporter) (calls : List (Net × Logs)) :
    (consumeAll convert e0 calls).metrics.eventsExported
        + (consumeAll convert e0 calls).metrics.eventsFailed
      = e0.metrics.eventsExported + e0.metrics.eventsFailed
        + (calls.map (fun c => ((batchOf convert c.2).length : Int))).sum := by
  induction calls generalizing e0 with
  | nil => simp [consumeAll]
  | cons c calls ih =>
    have e1 : consumeAll convert e0 (c :: calls)
        = consumeAll convert (ConsumeLogsWith convert c.1 e0 c.2).2 calls := rfl
    rw [e1, ih, consume_step_sum, List.map_cons, List.sum_cons]
    omega

/-- Claim C5: with an accumulated batch of size `n`, a `ConsumeLogs` call adds
`n` to `eventsExported` and nothing to `eventsFailed` when `n > 0` and the send
succeeds, adds `n` to `eventsFailed` and nothing to `eventsExported` when
`n > 0` and the send fails, and changes neither when `n = 0`; so over any
sequence of calls `eventsExported + eventsFailed` grows by the sum of the
sizes of the non-empty batches. -/
theorem consume_exported_failed (convert : LogRecord → Resource → Event × Option Error)
    (net : Net) (e : securityEventExporter) (ld : Logs) :
    (0 < (batchOf convert ld).length → sendOutcome convert net e ld = none →
      (ConsumeLogsWith convert net e ld).2.metrics.eventsExported
        = e.metrics.eventsExported + ((batchOf convert ld).length : Int) ∧
      (ConsumeLogsWith convert net e ld).2.metrics.eventsFailed = e.metrics.eventsFailed) ∧
    (0 < (batchOf convert ld).length → sendOutcome convert net e ld ≠ none →
      (ConsumeLogsWith convert net e ld).2.metrics.eventsFailed
        = e.metrics.eventsFailed + ((batchOf convert ld).length : Int) ∧
      (ConsumeLogsWith convert net e ld).2.metrics.eventsExported
        = e.metrics.eventsExported) ∧
    ((batchOf convert ld).length = 0 →
      (ConsumeLogsWith convert net e ld).2.metrics.eventsExported = e.metrics.eventsExported ∧
      (ConsumeLogsWith convert net e ld).2.metrics.eventsFailed = e.metrics.eventsFailed) ∧
    (∀ (e0 : securityEventExporter) (calls : List (Net × Logs)),
      (consumeAll convert e0 calls).metrics.eventsExported
          + (consumeAll convert e0 calls).metrics.eventsFailed
        = e0.metrics.eventsExported + e0.metrics.eventsFailed
          + ((calls.filter (fun c => decide (0 < (batchOf convert c.2).length))).map
              (fun c => ((batchOf convert c.2).length : Int))).sum) := by
  refine ⟨?_, ?_, ?_, ?_⟩
  · intro hn hs
    obtain ⟨_, _, _, h4, h5⟩ := consume_sent convert net e ld hn
    rw [h4, h5]
    simp [hs]
  · intro hn hs
    obtain ⟨_, _, _, h4, h5⟩ := consume_sent convert net e ld hn
    rw [h4, h5]
    simp [hs]
  · intro h0
    have hn : ¬ (batchOf convert ld).length > 0 := by omega
    rw [consume_not_sent convert net e ld hn]
    simp [atSend]
  · intro e0 calls
    rw [sum_filter_pos (fun c : Net × Logs => (batchOf convert c.2).length) calls]
    exact consumeAll_sum convert e0 calls

/-- Witness of C5, the scenario of the specification: the sample unit gives a
batch of two events and the endpoint is unreachable, so `eventsFailed` grows
by two and `eventsExported` stays. -/
theorem consume_exported_failed_witness :
    0 < (batchOf sampleConvert sampleLogs).length ∧
    sendOutcome sampleConvert downNet sampleExporter sampleLogs ≠ none ∧
    (ConsumeLogsWith sampleConvert downNet sampleExporter sampleLogs).2.metrics.eventsFailed
      = sampleExporter.metrics.eventsFailed
        + ((batchOf sampleConvert sampleLogs).length : Int) ∧
    (ConsumeLogsWith sampleConvert downNet sampleExporter sampleLogs).2.metrics.eventsExported
      = sampleExporter.metrics.eventsExported :=
  have hn : 0 < (batchOf sampleConvert sampleLogs).length := by decide
  have hs : sendOutcome sampleConvert downNet sampleExporter sampleLogs ≠ none := by
    intro h
    have h2 : sendOutcome sampleConvert downNet sampleExporter sampleLogs
        = some ("failed to send HTTP request: " ++ "connection refused") := rfl
    rw [h2] at h
    cases h
  ⟨hn, hs, (consume_exported_failed sampleConvert downNet sampleExporter sampleLogs).2.1 hn hs⟩

/-- Claim C6: a `ConsumeLogs` call invokes `sendSecurityEventBatch` exactly
once, on the whole accumulated batch, when the batch is non-empty, and not at
all when it is empty; for an inbound unit without log records the call returns
success and leaves `httpRequests`, `httpErrors`, `httpDurations`,
`eventsExported` and `eventsFailed` unchanged. -/
theorem consume_send_once (convert : LogRecord → Resource → Event × Option Error)
    (net : Net) (e : securityEventExporter) (ld : Logs) :
    (batchOf convert ld ≠ [] →
      (ConsumeLogsWith convert net e ld).2.sendLog = e.sendLog ++ [batchOf convert ld]) ∧
    (batchOf convert ld = [] →
      (ConsumeLogsWith convert net e ld).2.sendLog = e.sendLog) ∧
    (leafCount ld = 0 →
      (ConsumeLogsWith convert net e ld).1 = none ∧
      (ConsumeLogsWith convert net e ld).2.sendLog = e.sendLog ∧
      (ConsumeLogsWith convert net e ld).2.metrics.httpRequests = e.metrics.httpRequests ∧
      (ConsumeLogsWith convert net e ld).2.metrics.httpErrors = e.metrics.httpErrors ∧
      (ConsumeLogsWith convert net e ld).2.metrics.httpDurations = e.metrics.httpDurations ∧
      (ConsumeLogsWith convert net e ld).2.metrics.eventsExported
        = e.metrics.eventsExported ∧
      (ConsumeLogsWith convert net e ld).2.metrics.eventsFailed = e.metrics.eventsFailed) := by
  refine ⟨?_, ?_, ?_⟩
  · intro hb
    have hn : (batchOf convert ld).length > 0 := List.length_pos.mpr hb
    exact (consume_sent convert net e ld hn).2.1
  · intro hb
    have hn : ¬ (batchOf convert ld).length > 0 := by simp [hb]
    rw [consume_not_sent convert net e ld hn]
    rfl
  · intro h0
    have hc := (consumeLoops_counts convert ld).2
    have hn : ¬ (batchOf convert ld).length > 0 := by omega
    rw [consume_not_sent convert net e ld hn]
    simp [atSend]

/-- Witness of C6: on `plog.NewLogs()` nothing is sent and success is returned;
on the sample unit the batch is sent once. -/
theorem consume_send_once_witness :
    (leafCount NewLogs = 0 ∧ (ConsumeLogsWith sampleConvert okNet sampleExporter NewLogs).1 = none
      ∧ (ConsumeLogsWith sampleConvert okNet sampleExporter NewLogs).2.metrics.httpRequests
        = sampleExporter.metrics.httpRequests) ∧
    (batchOf sampleConvert sampleLogs ≠ [] ∧
      (ConsumeLogsWith sampleConvert okNet sampleExporter sampleLogs).2.sendLog
        = sampleExporter.sendLog ++ [batchOf sampleConvert sampleLogs]) :=
  have hb : batchOf sampleConvert sampleLogs ≠ [] :=
    List.length_pos.mp (by decide)
  have h := (consume_send_once sampleConvert okNet sampleExporter NewLogs).2.2 rfl
  ⟨⟨rfl, h.1, h.2.2.1⟩,
    ⟨hb, (consume_send_once sampleConvert okNet sampleExporter sampleLogs).1 hb⟩⟩

theorem foldl_preserves {α σ : Type} (f : σ → α → σ) (P : σ → Prop)
    (h : ∀ s a, P s → P (f s a)) (l : List α) (s : σ) (hs : P s) : P (l.foldl f s) := by
  induction l generalizing s with
  | nil => exact hs
  | cons a l ih => exact ih (f s a) (h s a hs)

theorem batchOf_all_fail (convert : LogRecord → Resource → Event × Option Error)
    (hfail : ∀ r res, (convert r res).2 ≠ none) (ld : Logs) : batchOf convert ld = [] := by
  unfold batchOf consumeLoops
  refine foldl_preserves (consumeResource convert) (fun st => st.securityEvents = [])
    ?_ _ _ rfl
  intro st rl hst
  unfold consumeResource
  refine foldl_preserves (consumeScope convert rl.Resource) (fun st => st.securityEvents = [])
    ?_ _ _ hst
  intro st sl hst
  unfold consumeScope
  refine foldl_preserves (consumeRecord convert rl.Resource)
    (fun st => st.securityEvents = []) ?_ _ _ hst
  intro st r hst
  unfold consumeRecord
  rcases hc : convert r rl.Resource with ⟨ev, err⟩
  cases err with
  | none =>
    have := hfail r rl.Resource
    rw [hc] at this
    exact absurd rfl this
  | some x => exact hst

/-- Claim C7: `ConsumeLogs` returns an error exactly when the accumulated batch
is non-empty and `sendSecurityEventBatch` returns an error, and the error it
returns is then the sender's; conversion failures alone never make it fail:
with a converter that rejects every record it returns success. -/
theorem consume_error_iff (convert : LogRecord → Resource → Event × Option Error)
    (net : Net) (e : securityEventExporter) (ld : Logs) :
    ((ConsumeLogsWith convert net e ld).1 ≠ none ↔
      (batchOf convert ld ≠ [] ∧ sendOutcome convert net e ld ≠ none)) ∧
    (batchOf convert ld ≠ [] →
      (ConsumeLogsWith convert net e ld).1 = sendOutcome convert net e ld) ∧
    ((∀ r res, (convert r res).2 ≠ none) → (ConsumeLogsWith convert net e ld).1 = none) := by
  have hempty : batchOf convert ld = [] → (ConsumeLogsWith convert net e ld).1 = none := by
    intro hb
    have hn : ¬ (batchOf convert ld).length > 0 := by simp [hb]
    rw [consume_not_sent convert net e ld hn]
  refine ⟨?_, ?_, ?_⟩
  · by_cases hb : batchOf convert ld = []
    · simp [hb, hempty hb]
    · have hn : (batchOf convert ld).length > 0 := List.length_pos.mpr hb
      rw [(consume_sent convert net e ld hn).1]
      simp [hb]
  · intro hb
    have hn : (batchOf convert ld).length > 0 := List.length_pos.mpr hb
    exact (consume_sent convert net e ld hn).1
  · intro hfail
    exact hempty (batchOf_all_fail convert hfail ld)

/-- Witness of C7: the sample unit on the unreachable endpoint returns the
sender's error; with the converter that rejects every record it returns
success. -/
theorem consume_error_iff_witness :
    (batchOf sampleConvert sampleLogs ≠ [] ∧
      (ConsumeLogsWith sampleConvert downNet sampleExporter sampleLogs).1
        = sendOutcome sampleConvert downNet sampleExporter sampleLogs) ∧
    ((∀ r res, (failingConvert r res).2 ≠ none) ∧
      (ConsumeLogsWith failingConvert downNet sampleExporter sampleLogs).1 = none) :=
  have hb : batchOf sampleConvert sampleLogs ≠ [] :=
    List.length_pos.mp (by decide)
  have hf : ∀ r res, (failingConvert r res).2 ≠ none := fun _ _ h => Option.noConfusion h
  ⟨⟨hb, (consume_error_iff sampleConvert downNet sampleExporter sampleLogs).2.1 hb⟩,
    ⟨hf, (consume_error_iff failingConvert downNet sampleExporter sampleLogs).2.2 hf⟩⟩

/-! ## Configuration -/

/-- Claim C10: `Validate` returns an error exactly when `Endpoint` is the empty
string, and when it does the configuration, `Timeout` included, is unchanged. -/
theorem validate_error_iff (cfg : Config) :
    (cfg.Validate.1 ≠ none ↔ cfg.Endpoint = "") ∧
    (cfg.Validate.1 ≠ none → cfg.Validate.2 = cfg) := by
  unfold Config.Validate
  by_cases h : cfg.Endpoint = ""
  · simp [h]
  · simp [h]

/-- Witness of C10: the test case `missing endpoint`. -/
theorem validate_error_iff_witness :
    (Config.Validate ⟨"", 30 * Second, [], [], [], []⟩).1 ≠ none ∧
    (Config.Validate ⟨"", 30 * Second, [], [], [], []⟩).2 = ⟨"", 30 * Second, [], [], [], []⟩ :=
  have h : (Config.Validate ⟨"", 30 * Second, [], [], [], []⟩).1 ≠ none :=
    fun h => Option.noConfusion h
  ⟨h, (validate_error_iff ⟨"", 30 * Second, [], [], [], []⟩).2 h⟩

/-- Claim C11: for a configuration with a non-empty `Endpoint`, `Validate`
succeeds and leaves a strictly positive `Timeout`: thirty seconds when the
original was zero or negative, the original otherwise; every other field is
unchanged, and validating the result again changes nothing. -/
theorem validate_default_timeout (cfg : Config) (h : cfg.Endpoint ≠ "") :
    cfg.Validate.1 = none ∧
    0 < cfg.Validate.2.Timeout ∧
    (cfg.Timeout ≤ 0 → cfg.Validate.2.Timeout = 30 * Second) ∧
    (0 < cfg.Timeout → cfg.Validate.2.Timeout = cfg.Timeout) ∧
    cfg.Validate.2 = { cfg with Timeout := cfg.Validate.2.Timeout } ∧
    cfg.Validate.2.Validate = (none, cfg.Validate.2) := by
  unfold Config.Validate
  by_cases ht : cfg.Timeout ≤ 0
  · have h30 : ¬ (30 * Second ≤ 0) := by decide
    have hlt : ¬ (0 < cfg.Timeout) := by omega
    simp [h, ht, h30, hlt]
    decide
  · have hlt : 0 < cfg.Timeout := by omega
    simp [h, ht, hlt]

/-- Witness of C11: the test case `zero timeout` gets the default of thirty
seconds. -/
theorem validate_default_timeout_witness :
    zeroTimeoutConfig.Endpoint ≠ "" ∧
    zeroTimeoutConfig.Validate.1 = none ∧
    zeroTimeoutConfig.Validate.2.Timeout = 30 * Second :=
  have h : zeroTimeoutConfig.Endpoint ≠ "" := by decide
  ⟨h, (validate_default_timeout zeroTimeoutConfig h).1,
    (validate_default_timeout zeroTimeoutConfig h).2.2.1 (by decide)⟩

/-! ## Header names -/

theorem startsWith_append (b c : List Char) : startsWith (b ++ c) b = true := by
  induction b with
  | nil => cases c <;> rfl
  | cons x b ih => simp [startsWith, ih]

theorem containsChars_of_startsWith (l sub : List Char) (h : startsWith l sub = true) :
    containsChars l sub = true := by
  cases l with
  | nil => exact h
  | cons x l => simp [containsChars, h]

theorem containsChars_append (a b c : List Char) : containsChars (a ++ b ++ c) b = true := by
  induction a with
  | nil =>
    rw [List.nil_append]
    exact containsChars_of_startsWith _ _ (startsWith_append b c)
  | cons x a ih =>
    have e : x :: a ++ b ++ c = x :: (a ++ b ++ c) := rfl
    rw [e, containsChars, ih]
    simp

theorem ToLower_append (lower : Char → Char) (a b : String) :
    (ToLower lower (a ++ b)).data = (ToLower lower a).data ++ (ToLower lower b).data := by
  simp [ToLower, String.data_append]

/-- Claim C12, as stated, fails: the header name `api-key` contains the listed
name `api-key` and is not flagged. -/
theorem isSensitiveHeader_counterexample :
    ¬ (∀ (lower : Char → Char) (headerName name : String), name ∈ specSensitiveNames →
      containsIgnoringCase lower headerName name →
      isSensitiveHeader lower headerName = true) := by
  intro h
  have h1 := h asciiLower "api-key" "api-key" (by decide) ⟨"", "api-key", "", rfl, rfl⟩
  have h2 : isSensitiveHeader asciiLower "api-key" = false := by decide
  rw [h2] at h1
  cases h1

/-- Claim C12, amended: for every header name that contains, compared without
regard to letter case, one of the names `authorization`, `cookie`, `x-api-key`
or `x-auth-token`, `isSensitiveHeader` returns true. The hypothesis on `lower`
says that the name, written in lower case, is left as it is. -/
theorem isSensitiveHeader_of_contains (lower : Char → Char) (headerName name : String)
    (hname : name = "authorization" ∨ name = "cookie" ∨ name = "x-api-key" ∨
      name = "x-auth-token")
    (hlow : ToLower lower name = name)
    (hc : containsIgnoringCase lower headerName name) :
    isSensitiveHeader lower headerName = true := by
  have hmem : name ∈ sensitiveHeaders := by
    rcases hname with h | h | h | h <;> subst h <;> decide
  obtain ⟨pre, mid, post, hsplit, hmid⟩ := hc
  rw [hlow] at hmid
  unfold isSensitiveHeader
  rw [List.any_eq_true]
  refine ⟨name, hmem, ?_⟩
  unfold Contains
  rw [hsplit, ToLower_append, ToLower_append, hmid]
  exact containsChars_append _ _ _

/-- Witness of the amended C12, one header for each of the four names:
`Authorization`, `Set-Cookie`, `X-API-Key` and `X-Auth-Token` are flagged. -/
theorem isSensitiveHeader_of_contains_witness :
    (ToLower asciiLower "authorization" = "authorization" ∧
      containsIgnoringCase asciiLower "Authorization" "authorization" ∧
      isSensitiveHeader asciiLower "Authorization" = true) ∧
    (ToLower asciiLower "cookie" = "cookie" ∧
      containsIgnoringCase asciiLower "Set-Cookie" "cookie" ∧
      isSensitiveHeader asciiLower "Set-Cookie" = true) ∧
    (ToLower asciiLower "x-api-key" = "x-api-key" ∧
      containsIgnoringCase asciiLower "X-API-Key" "x-api-key" ∧
      isSensitiveHeader asciiLower "X-API-Key" = true) ∧
    (ToLower asciiLower "x-auth-token" = "x-auth-token" ∧
      containsIgnoringCase asciiLower "X-Auth-Token" "x-auth-token" ∧
      isSensitiveHeader asciiLower "X-Auth-Token" = true) :=
  have l1 : ToLower asciiLower "authorization" = "authorization" := by decide
  have l2 : ToLower asciiLower "cookie" = "cookie" := by decide
  have l3 : ToLower asciiLower "x-api-key" = "x-api-key" := by decide
  have l4 : ToLower asciiLower "x-auth-token" = "x-auth-token" := by decide
  have c1 : containsIgnoringCase asciiLower "Authorization" "authorization" :=
    ⟨"", "Authorization", "", by decide, by decide⟩
  have c2 : containsIgnoringCase asciiLower "Set-Cookie" "cookie" :=
    ⟨"Set-", "Cookie", "", by decide, by decide⟩
  have c3 : containsIgnoringCase asciiLower "X-API-Key" "x-api-key" :=
    ⟨"", "X-API-Key", "", by decide, by decide⟩
  have c4 : containsIgnoringCase asciiLower "X-Auth-Token" "x-auth-token" :=
    ⟨"", "X-Auth-Token", "", by decide, by decide⟩
  ⟨⟨l1, c1, isSensitiveHeader_of_contains asciiLower "Authorization" "authorization"
      (Or.inl rfl) l1 c1⟩,
    ⟨l2, c2, isSensitiveHeader_of_contains asciiLower "Set-Cookie" "cookie"
      (Or.inr (Or.inl rfl)) l2 c2⟩,
    ⟨l3, c3, isSensitiveHeader_of_contains asciiLower "X-API-Key" "x-api-key"
      (Or.inr (Or.inr (Or.inl rfl))) l3 c3⟩,
    ⟨l4, c4, isSensitiveHeader_of_contains asciiLower "X-Auth-Token" "x-auth-token"
      (Or.inr (Or.inr (Or.inr rfl))) l4 c4⟩⟩

/-! ## The accumulated batch -/

theorem consumeRecord_events (convert : LogRecord → Resource → Event × Option Error)
    (resource : Resource) (st : LoopState) (r : LogRecord) :
    (consumeRecord convert resource st r).securityEvents
      = st.securityEvents ++
        (([(r, resource)].filter (fun p => (convert p.1 p.2).2.isNone)).map
          (fun p => (convert p.1 p.2).1)) := by
  unfold consumeRecord
  rcases hc : convert r resource with ⟨ev, err⟩
  cases err with
  | none => simp [List.filter_cons, hc]
  | some x => simp [List.filter_cons, hc]

theorem foldl_consumeRecord_events (convert : LogRecord → Resource → Event × Option Error)
    (resource : Resource) (recs : List LogRecord) (st : LoopState) :
    (recs.foldl (consumeRecord convert resource) st).securityEvents
      = st.securityEvents ++
        (((recs.map (fun r => (r, resource))).filter
          (fun p => (convert p.1 p.2).2.isNone)).map (fun p => (convert p.1 p.2).1)) := by
  induction recs generalizing st with
  | nil => simp
  | cons r recs ih =>
    rw [List.foldl_cons, ih, consumeRecord_events, List.map_cons, List.append_assoc,
      ← List.map_append, ← List.filter_append]
    rfl

theorem foldl_consumeScope_events (convert : LogRecord → Resource → Event × Option Error)
    (resource : Resource) (scopes : List ScopeLogs) (st : LoopState) :
    (scopes.foldl (consumeScope convert resource) st).securityEvents
      = st.securityEvents ++
        (((scopes.flatMap (fun sl => sl.LogRecords.map (fun r => (r, resource)))).filter
          (fun p => (convert p.1 p.2).2.isNone)).map (fun p => (convert p.1 p.2).1)) := by
  induction scopes generalizing st with
  | nil => simp
  | cons sl scopes ih =>
    have hs : (consumeScope convert resource st sl).securityEvents
        = st.securityEvents ++
          (((sl.LogRecords.map (fun r => (r, resource))).filter
            (fun p => (convert p.1 p.2).2.isNone)).map (fun p => (convert p.1 p.2).1)) := by
      unfold consumeScope
      exact foldl_consumeRecord_events convert resource sl.LogRecords _
    rw [List.foldl_cons, ih, hs, List.flatMap_cons, List.filter_append, List.map_append,
      List.append_assoc]

theorem foldl_consumeResource_events (convert : LogRecord → Resource → Event × Option Error)
    (groups : List ResourceLogs) (st : LoopState) :
    (groups.foldl (consumeResource convert) st).securityEvents
      = st.securityEvents ++
        (((traversal ⟨groups⟩).filter
          (fun p => (convert p.1 p.2).2.isNone)).map (fun p => (convert p.1 p.2).1)) := by
  induction groups generalizing st with
  | nil => simp [traversal]
  | cons rl groups ih =>
    have hr : (consumeResource convert st rl).securityEvents
        = st.securityEvents ++
          (((rl.ScopeLogs.flatMap
              (fun sl => sl.LogRecords.map (fun r => (r, rl.Resource)))).filter
            (fun p => (convert p.1 p.2).2.isNone)).map (fun p => (convert p.1 p.2).1)) := by
      unfold consumeResource
      exact foldl_consumeScope_events convert rl.Resource rl.ScopeLogs st
    have ht : traversal ⟨rl :: groups⟩
        = rl.ScopeLogs.flatMap (fun sl => sl.LogRecords.map (fun r => (r, rl.Resource)))
          ++ traversal ⟨groups⟩ := by
      simp [traversal, List.flatMap_cons]
    rw [List.foldl_cons, ih, hr, ht, List.filter_append, List.map_append, List.append_assoc]

theorem successes_all (convert : LogRecord → Resource → Event × Option Error)
    (hok : ∀ r res, (convert r res).2 = none) (ld : Logs) :
    successes convert ld = traversal ld := by
  unfold successes
  rw [List.filter_eq_self]
  intro p _
  rw [hok p.1 p.2]
  rfl

/-- Claim C13: the batch that `ConsumeLogs` accumulates is the sequence of the
conversions of the successfully converted records, in traversal order
(resource groups, scope groups within each, records within each), each record
converted with the resource of its own group: nothing is reordered, duplicated
or dropped. With the real converter it is the conversion of every record of
the traversal, and it is this batch that is handed to the sender. -/
theorem batch_is_traversal (convert : LogRecord → Resource → Event × Option Error)
    (px : Pdata) (net : Net) (e : securityEventExporter) (ld : Logs) :
    batchOf convert ld = (successes convert ld).map (fun p => (convert p.1 p.2).1) ∧
    (∀ i : Nat, (batchOf convert ld)[i]? =
      ((successes convert ld)[i]?).map (fun p => (convert p.1 p.2).1)) ∧
    batchOf (convertLogToSecurityEvent px e.config) ld =
      (traversal ld).map (fun p => (convertLogToSecurityEvent px e.config p.1 p.2).1) ∧
    (ConsumeLogs px net e ld).2.sendLog =
      if (traversal ld).length = 0 then e.sendLog
      else e.sendLog ++
        [(traversal ld).map (fun p => (convertLogToSecurityEvent px e.config p.1 p.2).1)] := by
  have key : ∀ conv : LogRecord → Resource → Event × Option Error,
      batchOf conv ld = (successes conv ld).map (fun p => (conv p.1 p.2).1) := by
    intro conv
    have h := foldl_consumeResource_events conv ld.ResourceLogs ⟨0, 0, []⟩
    unfold batchOf consumeLoops successes
    rw [h]
    rfl
  have hreal : batchOf (convertLogToSecurityEvent px e.config) ld =
      (traversal ld).map (fun p => (convertLogToSecurityEvent px e.config p.1 p.2).1) := by
    rw [key, successes_all _ (fun _ _ => rfl)]
  refine ⟨key convert, ?_, hreal, ?_⟩
  · intro i
    rw [key convert, List.getElem?_map]
  · unfold ConsumeLogs
    have hlen : (batchOf (convertLogToSecurityEvent px e.config) ld).length
        = (traversal ld).length := by
      rw [hreal, List.length_map]
    by_cases ht : (traversal ld).length = 0
    · have hn : ¬ (batchOf (convertLogToSecurityEvent px e.config) ld).length > 0 := by
        omega
      rw [consume_not_sent _ net e ld hn, if_pos ht]
      rfl
    · have hn : (batchOf (convertLogToSecurityEvent px e.config) ld).length > 0 := by
        omega
      rw [(consume_sent _ net e ld hn).2.1, if_neg ht, hreal]

/-! ## Conversion errors -/

theorem consumeLoops_no_errors (convert : LogRecord → Resource → Event × Option Error)
    (hok : ∀ r res, (convert r res).2 = none) (ld : Logs) :
    (consumeLoops convert ld).conversionErrors = 0 := by
  unfold consumeLoops
  refine foldl_preserves (consumeResource convert) (fun st => st.conversionErrors = 0)
    ?_ _ _ rfl
  intro st rl hst
  unfold consumeResource
  refine foldl_preserves (consumeScope convert rl.Resource)
    (fun st => st.conversionErrors = 0) ?_ _ _ hst
  intro st sl hst
  unfold consumeScope
  refine foldl_preserves (consumeRecord convert rl.Resource)
    (fun st => st.conversionErrors = 0) ?_ _ _ hst
  intro st r hst
  unfold consumeRecord
  rcases hc : convert r rl.Resource with ⟨ev, err⟩
  cases err with
  | none => exact hst
  | some x =>
    have := hok r rl.Resource
    rw [hc] at this
    cases this

theorem consume_conversionErrors (convert : LogRecord → Resource → Event × Option Error)
    (net : Net) (e : securityEventExporter) (ld : Logs) :
    (ConsumeLogsWith convert net e ld).2.metrics.conversionErrors
      = e.metrics.conversionErrors + ((consumeLoops convert ld).conversionErrors : Int) := by
  by_cases hn : (batchOf convert ld).length > 0
  · have hf := send_frame net (atSend convert e ld) (batchOf convert ld)
    rw [ConsumeLogsWith_eq, if_pos hn]
    rcases hsend : sendSecurityEventBatch net (atSend convert e ld) (batchOf convert ld)
      with ⟨err, e1⟩
    rw [hsend] at hf
    dsimp only at hf
    obtain ⟨_, _, _, h4, _, _⟩ := hf
    cases err <;> simp [h4, atSend]
  · rw [consume_not_sent convert net e ld hn]
    simp [atSend]

/-- Claim C14: `convertLogToSecurityEvent` returns a nil error for every log
record, resource and configuration; so a `ConsumeLogs` call leaves
`conversionErrors` unchanged, and the size of its accumulated batch is the
number of leaf log records, which is what it adds to `logsReceived`. -/
theorem convert_never_fails (px : Pdata) (config : Config) (logRecord : LogRecord)
    (resource : Resource) (net : Net) (e : securityEventExporter) (ld : Logs) :
    (convertLogToSecurityEvent px config logRecord resource).2 = none ∧
    (ConsumeLogs px net e ld).2.metrics.conversionErrors = e.metrics.conversionErrors ∧
    (batchOf (convertLogToSecurityEvent px e.config) ld).length = leafCount ld ∧
    (ConsumeLogs px net e ld).2.metrics.logsReceived
      = e.metrics.logsReceived
        + ((batchOf (convertLogToSecurityEvent px e.config) ld).length : Int) := by
  have h0 := consumeLoops_no_errors (convertLogToSecurityEvent px e.config)
    (fun _ _ => rfl) ld
  obtain ⟨h1, h2⟩ := consumeLoops_counts (convertLogToSecurityEvent px e.config) ld
  have hlen : (batchOf (convertLogToSecurityEvent px e.config) ld).length = leafCount ld := by
    omega
  refine ⟨rfl, ?_, hlen, ?_⟩
  · unfold ConsumeLogs
    rw [consume_conversionErrors, h0]
    simp
  · unfold ConsumeLogs
    by_cases hn : (batchOf (convertLogToSecurityEvent px e.config) ld).length > 0
    · rw [(consume_sent _ net e ld hn).2.2.1, h1, hlen]
    · rw [consume_not_sent _ net e ld hn]
      simp [atSend, h1, hlen]

end SecurityEventExporter
